import Mathlib

/-!
Verification of the ValuAI valuation engine.

The Python source works on IEEE floating-point values carried in pandas
objects.  We embed those values as the type `FVal`: a rational number, a
NaN sentinel, or one of the two infinities.  Arithmetic on `FVal` follows
the IEEE special-value rules used by numpy and pandas (NaN propagates,
infinities follow sign rules, comparisons with NaN are false); finite
arithmetic is idealized as exact rational arithmetic.

Embedded operations (translated from the source):
  - `pctiles` and the linear-interpolation percentile of numpy
    (src/valuation.py, `pctiles`);
  - `implied_price_from_multiple` (src/valuation.py);
  - `clean_peers` with its keep mask, column-level multiple recomputation,
    infinity replacement, dropna and 5th-95th winsorization
    (src/run_mvp.py, `clean_peers`);
  - the FCFF DCF scenario runner `dcfRun` with explicit-period loop,
    terminal FCFF and Gordon terminal value (src/dcf.py, `dcf_ev`);
  - the enterprise-value assembly of `get_basic_snapshot`
    (src/data_fetch.py).

`implied_ev_from_multiple` is imported by src/run_mvp.py from the
valuation module but is not defined in any file under src/; it is
modelled from the spec (see its doc comment).
-/

namespace ValuAI

attribute [local semireducible] Rat.add Rat.mul Rat.inv Rat.sub

/-- A floating-point value as used by the source: NaN (the missing
sentinel), positive or negative infinity, or a finite number (idealized
as a rational). -/
inductive FVal where
  | nan : FVal
  | pinf : FVal
  | ninf : FVal
  | num : ℚ → FVal
deriving DecidableEq, Repr

open FVal

/-- True exactly on the NaN sentinel (the model of `pd.isna` on floats;
infinities are not na). -/
def isnanB : FVal → Bool
  | nan => true
  | _ => false

/-- True exactly on finite values. -/
def isNumB : FVal → Bool
  | num _ => true
  | _ => false

/-- The finite payload, if any. -/
def toNumO : FVal → Option ℚ
  | num q => some q
  | _ => none

/-- The model of `.replace([np.inf, -np.inf], np.nan)` at a single value:
infinities become the missing sentinel. -/
def infToNan : FVal → FVal
  | num q => num q
  | _ => nan

/-- IEEE addition on special values; exact rational addition on finite
values. -/
def fadd : FVal → FVal → FVal
  | nan, _ => nan
  | _, nan => nan
  | pinf, ninf => nan
  | ninf, pinf => nan
  | pinf, _ => pinf
  | ninf, _ => ninf
  | num _, pinf => pinf
  | num _, ninf => ninf
  | num a, num b => num (a + b)

/-- IEEE negation. -/
def fneg : FVal → FVal
  | nan => nan
  | pinf => ninf
  | ninf => pinf
  | num a => num (-a)

/-- IEEE subtraction, as addition of the negation. -/
def fsub (x y : FVal) : FVal := fadd x (fneg y)

/-- IEEE multiplication with sign rules; `0 * inf` is NaN. -/
def fmul : FVal → FVal → FVal
  | nan, _ => nan
  | _, nan => nan
  | pinf, pinf => pinf
  | pinf, ninf => ninf
  | ninf, pinf => ninf
  | ninf, ninf => pinf
  | pinf, num b => if 0 < b then pinf else if b < 0 then ninf else nan
  | ninf, num b => if 0 < b then ninf else if b < 0 then pinf else nan
  | num a, pinf => if 0 < a then pinf else if a < 0 then ninf else nan
  | num a, ninf => if 0 < a then ninf else if a < 0 then pinf else nan
  | num a, num b => num (a * b)

/-- IEEE division (numpy semantics: a nonzero finite value divided by
zero gives a signed infinity, `0/0` gives NaN). -/
def fdiv : FVal → FVal → FVal
  | nan, _ => nan
  | _, nan => nan
  | pinf, pinf => nan
  | pinf, ninf => nan
  | ninf, pinf => nan
  | ninf, ninf => nan
  | pinf, num b => if 0 ≤ b then pinf else ninf
  | ninf, num b => if 0 ≤ b then ninf else pinf
  | num _, pinf => num 0
  | num _, ninf => num 0
  | num a, num b =>
    if b = 0 then (if a = 0 then nan else if 0 < a then pinf else ninf)
    else num (a / b)

/-- Natural power by repeated multiplication; exponent zero gives one,
as Python `x ** 0` does even on NaN. -/
def fpow (x : FVal) : ℕ → FVal
  | 0 => num 1
  | n + 1 => fmul (fpow x n) x

/-- IEEE `<` as a Boolean: any comparison involving NaN is false. -/
def fLt : FVal → FVal → Bool
  | nan, _ => false
  | _, nan => false
  | ninf, ninf => false
  | ninf, _ => true
  | _, ninf => false
  | pinf, _ => false
  | num _, pinf => true
  | num a, num b => decide (a < b)

/-- IEEE `≤` as a Boolean: any comparison involving NaN is false. -/
def fLe : FVal → FVal → Bool
  | nan, _ => false
  | _, nan => false
  | ninf, _ => true
  | _, pinf => true
  | pinf, _ => false
  | num _, ninf => false
  | num a, num b => decide (a ≤ b)

/-- IEEE `>` as a Boolean. -/
def fGt (x y : FVal) : Bool := fLt y x

/-- The Python expression `x or 0` on a float: `0.0` is falsy and is
replaced by the integer zero (the same value); NaN and infinities are
truthy and pass through. -/
def pyOr0 (v : FVal) : FVal := if v = num 0 then num 0 else v

/-! ## Percentiles (src/valuation.py and pandas quantile) -/

/-- Insert into a sorted list of rationals. -/
def insertQ (x : ℚ) : List ℚ → List ℚ
  | [] => [x]
  | y :: ys => if x ≤ y then x :: y :: ys else y :: insertQ x ys

/-- Insertion sort, ascending. -/
def sortQ : List ℚ → List ℚ
  | [] => []
  | x :: xs => insertQ x (sortQ xs)

/-- Floor of a nonnegative rational as a natural number. -/
def qfloorNat (h : ℚ) : ℕ := h.num.toNat / h.den

/-- Linear interpolation into a sorted list at fractional index `h`
(the scheme shared by `np.percentile` and `pandas.Series.quantile`
with the default linear interpolation): with `i = ⌊h⌋`, the result is
`x_i + (h - i) * (x_(i+1) - x_i)`. -/
def interpAt (s : List ℚ) (h : ℚ) : ℚ :=
  let i := qfloorNat h
  let lo := s.getD i 0
  let hi := s.getD (i + 1) lo
  lo + (h - (i : ℚ)) * (hi - lo)

/-- `np.percentile(xs, q)` with linear interpolation: fractional index
`(n - 1) * q / 100` into the sorted data. -/
def percentileNp (xs : List ℚ) (q : ℚ) : ℚ :=
  interpAt (sortQ xs) (((xs.length : ℚ) - 1) * q / 100)

/-- `pandas.Series.quantile(p)` with linear interpolation: fractional
index `(n - 1) * p` into the sorted data. -/
def quantilePd (xs : List ℚ) (p : ℚ) : ℚ :=
  interpAt (sortQ xs) (((xs.length : ℚ) - 1) * p)

/-- `pctiles` from src/valuation.py: replace infinities by NaN, drop
NaN, return `(nan, nan, nan)` on an empty remainder, else the 25th,
50th and 75th linear-interpolation percentiles. -/
def pctiles (xs : List FVal) : FVal × FVal × FVal :=
  let s := xs.filterMap toNumO
  if s.isEmpty then (nan, nan, nan)
  else (num (percentileNp s 25), num (percentileNp s 50), num (percentileNp s 75))

/-! ## Implied valuation from peer multiples (src/valuation.py) -/

/-- The fields of the target row read by `implied_price_from_multiple`:
the driver value (`target_row[driver_name]`), shares outstanding, cash,
debt, and the three percentile multiples
`target_row[f"..._p25" / "..._p50" / "..._p75"]`. -/
structure TargetRow where
  driver : FVal
  shares_out : FVal
  cash : FVal
  debt : FVal
  p25 : FVal
  p50 : FVal
  p75 : FVal
deriving DecidableEq, Repr

/-- One scenario label of `implied_price_from_multiple`: missing
multiple gives NaN, otherwise
`price = (mult * driver - (debt or 0) + (cash or 0)) / shares`. -/
def impliedLabel (row : TargetRow) (mult : FVal) : FVal :=
  if isnanB mult then nan
  else
    let ev := fmul mult row.driver
    let eq := fadd (fsub ev (pyOr0 row.debt)) (pyOr0 row.cash)
    fdiv eq row.shares_out

/-- `implied_price_from_multiple` from src/valuation.py: returns the
(low, base, high) triple; all three are NaN when the driver is missing
or the shares are missing or zero. -/
def implied_price_from_multiple (row : TargetRow) : FVal × FVal × FVal :=
  if isnanB row.driver || isnanB row.shares_out || decide (row.shares_out = num 0)
  then (nan, nan, nan)
  else (impliedLabel row row.p25, impliedLabel row row.p50, impliedLabel row row.p75)

/-- Modelled from the spec: `implied_ev_from_multiple` is imported by
src/run_mvp.py from the valuation module but is not defined in any file
under src/.  The spec says: `implied_ev(target_driver_value, p25, p50,
p75) -> \x7blow: p25*driver, base: p50*driver, high: p75*driver\x7d`; any
missing multiple or missing/zero driver yields missing for that scenario
label, and the output unit is enterprise value directly. -/
def implied_ev_from_multiple (row : TargetRow) : FVal × FVal × FVal :=
  let one := fun m =>
    if isnanB row.driver || decide (row.driver = num 0) || isnanB m then nan
    else fmul m row.driver
  (one row.p25, one row.p50, one row.p75)

/-! ## Peer hygiene filter (src/run_mvp.py, clean_peers) -/

/-- The columns of a peer row used by `clean_peers`. -/
structure Peer where
  revenue_ttm : FVal
  ebitda_ttm : FVal
  enterprise_value : FVal
  ev_rev : FVal
  ev_ebitda : FVal
deriving DecidableEq, Repr

/-- The per-row keep mask of step 1:
`col.replace([inf, -inf], nan).gt(0)` on each of the three driver
columns (a NaN compares false). -/
def usableMask (p : Peer) : Bool :=
  fGt (infToNan p.revenue_ttm) (num 0)
    && fGt (infToNan p.ebitda_ttm) (num 0)
    && fGt (infToNan p.enterprise_value) (num 0)

/-- Step 2 of `clean_peers`: the multiple columns are recomputed from
enterprise value and the driver only when the whole column is absent
from the frame (`if "ev_rev" not in peers`); `hasEvRev` and
`hasEvEbitda` say whether the columns are present. -/
def recomputeMultiples (hasEvRev hasEvEbitda : Bool) (p : Peer) : Peer :=
  let p1 := if hasEvRev then p
    else { p with ev_rev := fdiv p.enterprise_value p.revenue_ttm }
  if hasEvEbitda then p1
  else { p1 with ev_ebitda := fdiv p1.enterprise_value p1.ebitda_ttm }

/-- Step 3a of `clean_peers`: replace infinities by NaN in both
multiple columns. -/
def replaceInfMultiples (p : Peer) : Peer :=
  { p with ev_rev := infToNan p.ev_rev, ev_ebitda := infToNan p.ev_ebitda }

/-- Step 3b of `clean_peers`: the dropna mask; a row survives if both
multiples are present (and, after step 3a, therefore finite). -/
def hasBothMultiples (p : Peer) : Bool :=
  isNumB p.ev_rev && isNumB p.ev_ebitda

/-- Steps 1 to 3 of `clean_peers`: keep rows with usable drivers,
recompute absent multiple columns, replace infinite multiples by NaN
and drop rows missing either multiple. -/
def survivors (hasEvRev hasEvEbitda : Bool) (peers : List Peer) : List Peer :=
  (((peers.filter usableMask).map (recomputeMultiples hasEvRev hasEvEbitda)).map
      replaceInfMultiples).filter hasBothMultiples

/-- `np.clip`-style clamp of a rational into `[lo, hi]` (lower bound
applied first, then upper). -/
def clampQ (x lo hi : ℚ) : ℚ := min (max x lo) hi

/-- Clipping of one float cell by `Series.clip(lower=lo, upper=hi)`:
NaN is left alone, a finite value is clamped, an infinity is replaced
by the violated bound. -/
def fclip (v : FVal) (lo hi : ℚ) : FVal :=
  match v with
  | nan => nan
  | pinf => num hi
  | ninf => num (min lo hi)
  | num q => num (clampQ q lo hi)

/-- The finite values of the `ev_rev` column (pandas quantile skips
NaN). -/
def evRevVals (rows : List Peer) : List ℚ := rows.filterMap fun p => toNumO p.ev_rev

/-- The finite values of the `ev_ebitda` column. -/
def evEbitdaVals (rows : List Peer) : List ℚ := rows.filterMap fun p => toNumO p.ev_ebitda

/-- Step 4 of `clean_peers` for the `ev_rev` column: if the column is
nonempty, compute its 5th and 95th linear-interpolation quantiles and
clip every cell into that range; an empty column is skipped. -/
def winsorizeEvRev (rows : List Peer) : List Peer :=
  if rows.isEmpty then rows
  else
    let lo := quantilePd (evRevVals rows) (5/100)
    let hi := quantilePd (evRevVals rows) (95/100)
    rows.map fun p => { p with ev_rev := fclip p.ev_rev lo hi }

/-- Step 4 of `clean_peers` for the `ev_ebitda` column. -/
def winsorizeEvEbitda (rows : List Peer) : List Peer :=
  if rows.isEmpty then rows
  else
    let lo := quantilePd (evEbitdaVals rows) (5/100)
    let hi := quantilePd (evEbitdaVals rows) (95/100)
    rows.map fun p => { p with ev_ebitda := fclip p.ev_ebitda lo hi }

/-- `clean_peers` from src/run_mvp.py: hygiene filter, defensive
multiple recomputation, inf/NaN drop, then 5th-95th winsorization of
each multiple column in turn. -/
def clean_peers (hasEvRev hasEvEbitda : Bool) (peers : List Peer) : List Peer :=
  winsorizeEvEbitda (winsorizeEvRev (survivors hasEvRev hasEvEbitda peers))

/-- The quantile-and-clip step of `clean_peers` applied to one multiple
column, viewed as the list of its values; at the point where the step
runs the column has already been cleared of NaN and infinities, so the
values are plain rationals.  An empty column is skipped unchanged. -/
def winsorizeStepQ (xs : List ℚ) : List ℚ :=
  if xs.isEmpty then xs
  else
    let lo := quantilePd xs (5/100)
    let hi := quantilePd xs (95/100)
    xs.map fun q => clampQ q lo hi

/-! ## DCF engine (src/dcf.py) -/

/-- The `DCFInputs` dataclass of src/dcf.py.  Numeric fields are
floating-point values; the horizon is an integer number of years. -/
structure DCFInputs where
  revenue_ttm : FVal
  ebit_margin : FVal
  tax_rate : FVal
  capex_pct : FVal
  d_and_a_pct : FVal
  nwc_pct : FVal
  wacc : FVal
  years : ℕ := 5
  growth_low : FVal := num (3/100)
  growth_base : FVal := num (6/100)
  growth_high : FVal := num (9/100)
  g_low : FVal := num (1/100)
  g_base : FVal := num (2/100)
  g_high : FVal := num (3/100)
deriving DecidableEq, Repr

/-- The state of the explicit-period loop of `_run` after `t`
iterations: current revenue, current NWC level, and the accumulated
discounted FCFF sum (`rev`, `nwc`, `ev` in the source).  The loop
starts from TTM revenue, NWC% times revenue and zero. -/
def loopState (I : DCFInputs) (gr : FVal) : ℕ → FVal × FVal × FVal
  | 0 => (I.revenue_ttm, fmul I.nwc_pct I.revenue_ttm, num 0)
  | k + 1 =>
    let s := loopState I gr k
    let rev_next := fmul s.1 (fadd (num 1) gr)
    let ebit := fmul rev_next I.ebit_margin
    let nopat := fmul ebit (fsub (num 1) I.tax_rate)
    let d_and_a := fmul I.d_and_a_pct rev_next
    let capex_pct_t := fsub I.capex_pct
      (fmul (fsub I.capex_pct I.d_and_a_pct) (num (((k + 1 : ℕ) : ℚ) / (I.years : ℚ))))
    let capex := fmul capex_pct_t rev_next
    let nwc_next := fmul I.nwc_pct rev_next
    let delta_nwc := fsub nwc_next s.2.1
    let fcff := fsub (fsub (fadd nopat d_and_a) capex) delta_nwc
    (rev_next, nwc_next, fadd s.2.2 (fdiv fcff (fpow (fadd (num 1) I.wacc) (k + 1))))

/-- The revenue entering year `t` of the loop, after one more year of
growth (`rev_next` in the source). -/
def yearRevNext (I : DCFInputs) (gr : FVal) (t : ℕ) : FVal :=
  fmul (loopState I gr (t - 1)).1 (fadd (num 1) gr)

/-- NOPAT of year `t`: `rev_next * ebit_margin * (1 - tax_rate)`. -/
def nopatYear (I : DCFInputs) (gr : FVal) (t : ℕ) : FVal :=
  fmul (fmul (yearRevNext I gr t) I.ebit_margin) (fsub (num 1) I.tax_rate)

/-- The linearly tapered CAPEX percentage of year `t`:
`capex_pct - (capex_pct - d_and_a_pct) * (t / years)`. -/
def capexPctYear (I : DCFInputs) (t : ℕ) : FVal :=
  fsub I.capex_pct (fmul (fsub I.capex_pct I.d_and_a_pct) (num ((t : ℚ) / (I.years : ℚ))))

/-- Free cash flow to firm of year `t`, exactly as computed inside the
loop: `nopat + d_and_a - capex - delta_nwc`. -/
def fcffYear (I : DCFInputs) (gr : FVal) (t : ℕ) : FVal :=
  let rn := yearRevNext I gr t
  fsub (fsub (fadd (nopatYear I gr t) (fmul I.d_and_a_pct rn)) (fmul (capexPctYear I t) rn))
    (fsub (fmul I.nwc_pct rn) (loopState I gr (t - 1)).2.1)

/-- The accumulated discounted explicit-period FCFF sum: the value of
the `ev` variable of `_run` when the loop finishes, before any terminal
value is added. -/
def explicitEV (I : DCFInputs) (gr : FVal) : FVal :=
  (loopState I gr I.years).2.2

/-- The terminal free cash flow `FCFF_(N+1)` of `_run`: revenue grows
once more by the terminal growth rate, CAPEX is forced to the D&A
percentage (maintenance capex), and NWC moves with terminal revenue. -/
def termFCFF (I : DCFInputs) (gr g_term : FVal) : FVal :=
  let s := loopState I gr I.years
  let rev_T1 := fmul s.1 (fadd (num 1) g_term)
  let ebit_T1 := fmul rev_T1 I.ebit_margin
  let nopat_T1 := fmul ebit_T1 (fsub (num 1) I.tax_rate)
  let d_and_a_T1 := fmul I.d_and_a_pct rev_T1
  let capex_T1 := fmul I.d_and_a_pct rev_T1
  let nwc_T1 := fmul I.nwc_pct rev_T1
  let delta_nwc_T1 := fsub nwc_T1 s.2.1
  fsub (fsub (fadd nopat_T1 d_and_a_T1) capex_T1) delta_nwc_T1

/-- One scenario of `dcf_ev` (the inner `_run` of src/dcf.py): the
explicit-period sum, then the diagnostic guard
`if fcff_T1 <= 0 or np.isnan(fcff_T1): return nan`, then the Gordon
terminal value added only when `wacc > g_term`. -/
def dcfRun (I : DCFInputs) (gr g_term : FVal) : FVal :=
  let ev := explicitEV I gr
  let fcff_T1 := termFCFF I gr g_term
  if fLe fcff_T1 (num 0) || isnanB fcff_T1 then nan
  else if fGt I.wacc g_term then
    fadd ev (fdiv (fdiv fcff_T1 (fsub I.wacc g_term)) (fpow (fadd (num 1) I.wacc) I.years))
  else ev

/-- `dcf_ev` from src/dcf.py: the (low, base, high) scenario triple,
each scenario run with its positionally paired growth and terminal
growth rates. -/
def dcf_ev (I : DCFInputs) : FVal × FVal × FVal :=
  (dcfRun I I.growth_low I.g_low, dcfRun I I.growth_base I.g_base,
    dcfRun I I.growth_high I.g_high)

/-! ## Snapshot enterprise value (src/data_fetch.py) -/

/-- A missing term contributes zero (`mcap if _notna(mcap) else 0`). -/
def orZero (v : FVal) : FVal := if isnanB v then num 0 else v

/-- The enterprise-value assembly inside `get_basic_snapshot`:
`ev = nan`, overwritten by `mcap + debt - cash` with per-term zero
substitution when at least one of the three terms is present. -/
def ev_from_components (mcap debt cash : FVal) : FVal :=
  if !isnanB mcap || !isnanB debt || !isnanB cash then
    fsub (fadd (orZero mcap) (orZero debt)) (orZero cash)
  else nan

/-- Follows the words of the spec: enterprise value is
`market_cap + debt - cash`, each absent term treated as zero, but the
whole result is missing if market_cap, debt and cash are all
simultaneously missing. -/
def ev_spec (mcap debt cash : FVal) : FVal :=
  if isnanB mcap && isnanB debt && isnanB cash then nan
  else fsub (fadd (orZero mcap) (orZero debt)) (orZero cash)

/-- Follows the words of the spec: a driver value is kept by the
hygiene mask when it is strictly positive after infinities are treated
as missing, that is, when it is a finite strictly positive number. -/
def isPosFiniteSpec : FVal → Bool
  | num q => decide (0 < q)
  | _ => false

/-! ## Helper lemmas -/

theorem fGt_infToNan_pos (v : FVal) : fGt (infToNan v) (num 0) = isPosFiniteSpec v := by
  cases v <;> simp [fGt, fLt, infToNan, isPosFiniteSpec]

theorem isNumB_fclip {v : FVal} {lo hi : ℚ} (h : isNumB v = true) :
    isNumB (fclip v lo hi) = true := by
  cases v <;> simp_all [fclip, isNumB]

theorem clampQ_idem (x lo hi : ℚ) : clampQ (clampQ x lo hi) lo hi = clampQ x lo hi := by
  simp only [clampQ, min_def, max_def]
  split_ifs <;> first | rfl | linarith

theorem filterMap_toNumO_nonnum (xs : List FVal) :
    (xs.filter fun v => !(isNumB v)).filterMap toNumO = [] := by
  rw [List.filterMap_eq_nil_iff]
  intro a ha
  have h := (List.mem_filter.1 ha).2
  cases a <;> simp_all [isNumB, toNumO]

/-! ## Claim C2 -/

/-- C2: `pctiles` first discards missing and infinite entries
(prepending a NaN and both infinities changes nothing, and a
collection containing only non-finite entries yields all-missing
without raising); the remaining entries are reduced with
linear-interpolation percentile semantics, so on [1..10] the result is
(3.25, 5.5, 7.75). -/
theorem pctiles_linear_interpolation_and_missing :
    pctiles [num 1, num 2, num 3, num 4, num 5, num 6, num 7, num 8, num 9, num 10]
        = (num (13/4), num (11/2), num (31/4)) ∧
    (∀ xs : List FVal, pctiles (nan :: pinf :: ninf :: xs) = pctiles xs) ∧
    (∀ xs : List FVal, pctiles (xs.filter fun v => !(isNumB v)) = (nan, nan, nan)) := by
  refine ⟨by decide, fun xs => rfl, fun xs => ?_⟩
  simp [pctiles, filterMap_toNumO_nonnum]

/-! ## Claim C9 -/

/-- C9: the snapshot enterprise value equals market_cap + debt - cash
with each absent term substituted by zero, except that the result is
missing when market_cap, debt and cash are all simultaneously missing:
the source computation agrees with the spec formula at every input. -/
theorem enterprise_value_components_spec :
    ∀ mcap debt cash : FVal, ev_from_components mcap debt cash = ev_spec mcap debt cash := by
  intro m d c
  cases m <;> cases d <;> cases c <;> rfl

/-! ## Claim C10 -/

/-- C10: when shares_out is missing or zero, `implied_price_from_multiple`
returns missing for all three labels without raising, regardless of the
driver and the percentile multiples. -/
theorem implied_price_missing_shares :
    ∀ row : TargetRow, isnanB row.shares_out = true ∨ row.shares_out = num 0 →
      implied_price_from_multiple row = (nan, nan, nan) := by
  intro row h
  rcases h with h | h <;> simp [implied_price_from_multiple, h]

/-- Witness for C10: a concrete row with missing shares but a finite
driver and three finite multiples. -/
theorem implied_price_missing_shares_witness :
    implied_price_from_multiple ⟨num 5, nan, num 1, num 2, num 3, num 3, num 3⟩
      = (nan, nan, nan) :=
  implied_price_missing_shares _ (Or.inl rfl)

/-! ## Claim C1 -/

/-- C1 counterexample: `implied_price_from_multiple` does not return
`m * d` in enterprise-value units.  With driver 2, shares 2, zero cash
and debt and all multiples 3 it returns the per-share price 3, not the
enterprise value 6; and with driver 0 (shares present) it returns 0,
not missing. -/
theorem implied_price_not_ev_counterexample :
    implied_price_from_multiple ⟨num 2, num 2, num 0, num 0, num 3, num 3, num 3⟩
        = (num 3, num 3, num 3) ∧
    (num 3 : FVal) ≠ num (3 * 2) ∧
    implied_price_from_multiple ⟨num 0, num 1, num 0, num 0, num 3, num 3, num 3⟩
        = (num 0, num 0, num 0) ∧
    (num 0 : FVal) ≠ nan := by decide

/-- C1 (amended): the spec implied-valuation operation is
`implied_ev_from_multiple` — imported by run_mvp.py but absent from
src/, modelled here from the spec — and for it the claim holds: each
label is exactly multiple times driver when the driver is a positive
finite number and that multiple is present, and a label is missing
whenever the driver is missing or zero or that multiple is missing.
(`implied_price_from_multiple` of valuation.py instead converts the
intermediate enterprise value to a per-share price and does not treat
a zero driver as missing.) -/
theorem implied_ev_backout_amended :
    (∀ (row : TargetRow) (d m : ℚ), row.driver = num d → 0 < d →
      ((row.p25 = num m → (implied_ev_from_multiple row).1 = num (m * d)) ∧
       (row.p50 = num m → (implied_ev_from_multiple row).2.1 = num (m * d)) ∧
       (row.p75 = num m → (implied_ev_from_multiple row).2.2 = num (m * d)) ∧
       (row.p25 = nan → (implied_ev_from_multiple row).1 = nan) ∧
       (row.p50 = nan → (implied_ev_from_multiple row).2.1 = nan) ∧
       (row.p75 = nan → (implied_ev_from_multiple row).2.2 = nan))) ∧
    (∀ row : TargetRow, row.driver = nan ∨ row.driver = num 0 →
      implied_ev_from_multiple row = (nan, nan, nan)) := by
  constructor
  · intro row d m hd hpos
    have hdz : ¬ d = 0 := ne_of_gt hpos
    refine ⟨?_, ?_, ?_, ?_, ?_, ?_⟩ <;> intro hm <;>
      simp [implied_ev_from_multiple, hd, hm, isnanB, hdz, fmul]
  · intro row h
    rcases h with h | h <;> simp [implied_ev_from_multiple, h, isnanB]

/-- Witness for C1 (amended): with driver 2 and base multiple 3 the
modelled implied_ev returns 6 = 3 * 2, and with driver 0 all labels
are missing. -/
theorem implied_ev_backout_amended_witness :
    (implied_ev_from_multiple ⟨num 2, num 1, num 0, num 0, num 3, num 3, num 3⟩).2.1
        = num (3 * 2) ∧
    implied_ev_from_multiple ⟨num 0, num 1, num 0, num 0, num 3, num 3, num 3⟩
        = (nan, nan, nan) :=
  ⟨((implied_ev_backout_amended.1 ⟨num 2, num 1, num 0, num 0, num 3, num 3, num 3⟩ 2 3
      rfl (by norm_num)).2.1) rfl,
   implied_ev_backout_amended.2 _ (Or.inr rfl)⟩

/-! ## Claim C5 -/

/-- C5 counterexample: the quantile-and-clip step is not idempotent.
The two peers with ev_rev values 1 and 2 survive steps 1-3 of
`clean_peers`; one application of the 5th-95th clip step maps the
column [1, 2] to [21/20, 39/20], and a second application moves it
again. -/
theorem winsorize_not_idempotent_counterexample :
    evRevVals (survivors true true
        [⟨num 1, num 1, num 1, num 1, num 1⟩, ⟨num 1, num 1, num 2, num 2, num 2⟩])
        = [1, 2] ∧
    winsorizeStepQ [1, 2] = [21/20, 39/20] ∧
    winsorizeStepQ (winsorizeStepQ [1, 2]) ≠ winsorizeStepQ [1, 2] := by decide

/-- C5 (amended): clipping with the once-computed 5th-95th bounds is
idempotent (re-clipping a column with the same bounds changes
nothing), and the clip step skips an empty column without raising; but
re-running the whole quantile-and-clip step recomputes strictly
narrower bounds on a non-degenerate column and so is not idempotent. -/
theorem winsorize_clip_fixed_bounds_idempotent :
    (∀ (lo hi : ℚ) (xs : List ℚ),
        ((xs.map fun q => clampQ q lo hi).map fun q => clampQ q lo hi)
          = xs.map fun q => clampQ q lo hi) ∧
    winsorizeStepQ ([] : List ℚ) = [] := by
  refine ⟨fun lo hi xs => ?_, rfl⟩
  rw [List.map_map]
  exact List.map_congr_left fun q _ => clampQ_idem q lo hi

/-! ## Claims C3 and C4: tracing rows through clean_peers -/

theorem mem_winsorizeEvRev {p : Peer} {rows : List Peer} (h : p ∈ winsorizeEvRev rows) :
    ∃ q ∈ rows, p.revenue_ttm = q.revenue_ttm ∧ p.ebitda_ttm = q.ebitda_ttm ∧
      p.enterprise_value = q.enterprise_value ∧ p.ev_ebitda = q.ev_ebitda ∧
      (isNumB q.ev_rev = true → isNumB p.ev_rev = true) := by
  unfold winsorizeEvRev at h
  split at h
  · exact ⟨p, h, rfl, rfl, rfl, rfl, fun hq => hq⟩
  · rcases List.mem_map.1 h with ⟨q, hq, rfl⟩
    exact ⟨q, hq, rfl, rfl, rfl, rfl, fun hn => isNumB_fclip hn⟩

theorem mem_winsorizeEvEbitda {p : Peer} {rows : List Peer} (h : p ∈ winsorizeEvEbitda rows) :
    ∃ q ∈ rows, p.revenue_ttm = q.revenue_ttm ∧ p.ebitda_ttm = q.ebitda_ttm ∧
      p.enterprise_value = q.enterprise_value ∧ p.ev_rev = q.ev_rev ∧
      (isNumB q.ev_ebitda = true → isNumB p.ev_ebitda = true) := by
  unfold winsorizeEvEbitda at h
  split at h
  · exact ⟨p, h, rfl, rfl, rfl, rfl, fun hq => hq⟩
  · rcases List.mem_map.1 h with ⟨q, hq, rfl⟩
    exact ⟨q, hq, rfl, rfl, rfl, rfl, fun hn => isNumB_fclip hn⟩

theorem mem_survivors {hr he : Bool} {peers : List Peer} {p : Peer}
    (h : p ∈ survivors hr he peers) :
    ∃ q ∈ peers, usableMask q = true ∧ hasBothMultiples p = true ∧
      p.revenue_ttm = q.revenue_ttm ∧ p.ebitda_ttm = q.ebitda_ttm ∧
      p.enterprise_value = q.enterprise_value := by
  unfold survivors at h
  have h1 := List.mem_filter.1 h
  rcases List.mem_map.1 h1.1 with ⟨q2, hq2, rfl⟩
  rcases List.mem_map.1 hq2 with ⟨q1, hq1, rfl⟩
  have h2 := List.mem_filter.1 hq1
  refine ⟨q1, h2.1, h2.2, h1.2, ?_, ?_, ?_⟩ <;> cases hr <;> cases he <;> rfl

theorem mem_clean_peers {hr he : Bool} {peers : List Peer} {p : Peer}
    (h : p ∈ clean_peers hr he peers) :
    ∃ q ∈ peers, usableMask q = true ∧
      p.revenue_ttm = q.revenue_ttm ∧ p.ebitda_ttm = q.ebitda_ttm ∧
      p.enterprise_value = q.enterprise_value ∧ hasBothMultiples p = true := by
  unfold clean_peers at h
  rcases mem_winsorizeEvEbitda h with ⟨q2, hq2, e1, e2, e3, e4, e5⟩
  rcases mem_winsorizeEvRev hq2 with ⟨q1, hq1, f1, f2, f3, f4, f5⟩
  rcases mem_survivors hq1 with ⟨q0, hq0, hu, hb, g1, g2, g3⟩
  have hb1 := hb
  rw [hasBothMultiples, Bool.and_eq_true] at hb1
  refine ⟨q0, hq0, hu, by rw [e1, f1, g1], by rw [e2, f2, g2], by rw [e3, f3, g3], ?_⟩
  rw [hasBothMultiples, Bool.and_eq_true]
  refine ⟨?_, ?_⟩
  · rw [e4]; exact f5 hb1.1
  · exact e5 (by rw [f4]; exact hb1.2)

/-- C3: the hygiene keep mask retains a driver value exactly when it is
a strictly positive finite number (infinities are replaced by NaN
before the comparison and a NaN compares false), so the keep step of
`clean_peers` keeps exactly those peers whose revenue_ttm, ebitda_ttm
and enterprise_value are all strictly positive after infinities are
treated as missing; consequently every row of the `clean_peers` output
has strictly positive finite revenue_ttm, ebitda_ttm and
enterprise_value, and in particular a peer with revenue_ttm = -5 never
appears in the output, whatever its other fields. -/
theorem clean_peers_positive_driver_filter :
    (∀ v : FVal, fGt (infToNan v) (num 0) = isPosFiniteSpec v) ∧
    (∀ peers : List Peer, peers.filter usableMask
        = peers.filter fun p => isPosFiniteSpec p.revenue_ttm
            && isPosFiniteSpec p.ebitda_ttm && isPosFiniteSpec p.enterprise_value) ∧
    (∀ (hr he : Bool) (peers : List Peer) (p : Peer), p ∈ clean_peers hr he peers →
      isPosFiniteSpec p.revenue_ttm = true ∧ isPosFiniteSpec p.ebitda_ttm = true ∧
        isPosFiniteSpec p.enterprise_value = true) ∧
    (∀ (hr he : Bool) (peers : List Peer) (p : Peer), p ∈ clean_peers hr he peers →
      p.revenue_ttm ≠ num (-5)) := by
  have key : ∀ (hr he : Bool) (peers : List Peer) (p : Peer), p ∈ clean_peers hr he peers →
      isPosFiniteSpec p.revenue_ttm = true ∧ isPosFiniteSpec p.ebitda_ttm = true ∧
        isPosFiniteSpec p.enterprise_value = true := by
    intro hr he peers p hp
    rcases mem_clean_peers hp with ⟨q, _, hu, e1, e2, e3, _⟩
    rw [usableMask, Bool.and_eq_true, Bool.and_eq_true] at hu
    rw [e1, e2, e3]
    simp only [fGt_infToNan_pos] at hu
    exact ⟨hu.1.1, hu.1.2, hu.2⟩
  refine ⟨fGt_infToNan_pos, ?_, key, ?_⟩
  · intro peers
    refine List.filter_congr fun p _ => ?_
    simp only [usableMask, fGt_infToNan_pos]
  intro hr he peers p hp hcontra
  have h5 := (key hr he peers p hp).1
  rw [hcontra] at h5
  simp [isPosFiniteSpec] at h5
  exact absurd h5 (by norm_num)

/-- Witness for C3: a concrete all-ones peer survives `clean_peers`
and its driver fields are certified strictly positive and distinct
from -5. -/
theorem clean_peers_positive_driver_filter_witness :
    (isPosFiniteSpec (Peer.mk (num 1) (num 1) (num 1) (num 1) (num 1)).revenue_ttm = true ∧
      isPosFiniteSpec (Peer.mk (num 1) (num 1) (num 1) (num 1) (num 1)).ebitda_ttm = true ∧
      isPosFiniteSpec (Peer.mk (num 1) (num 1) (num 1) (num 1) (num 1)).enterprise_value
        = true) ∧
    (Peer.mk (num 1) (num 1) (num 1) (num 1) (num 1)).revenue_ttm ≠ num (-5) :=
  ⟨clean_peers_positive_driver_filter.2.2.1 true true
      [Peer.mk (num 1) (num 1) (num 1) (num 1) (num 1)] _ (by decide),
   clean_peers_positive_driver_filter.2.2.2 true true
      [Peer.mk (num 1) (num 1) (num 1) (num 1) (num 1)] _ (by decide)⟩

theorem recompute_replace_ev_rev (he : Bool) (p : Peer) :
    (replaceInfMultiples (recomputeMultiples true he p)).ev_rev = infToNan p.ev_rev := by
  cases he <;> rfl

theorem recompute_replace_ev_ebitda (hr : Bool) (p : Peer) :
    (replaceInfMultiples (recomputeMultiples hr true p)).ev_ebitda
      = infToNan p.ev_ebitda := by
  cases hr <;> rfl

theorem survivors_cons (hr he : Bool) (p : Peer) (ps : List Peer) :
    survivors hr he (p :: ps)
      = (if usableMask p then
          (if hasBothMultiples (replaceInfMultiples (recomputeMultiples hr he p)) then
            [replaceInfMultiples (recomputeMultiples hr he p)] else []) else [])
        ++ survivors hr he ps := by
  unfold survivors
  by_cases hu : usableMask p = true
  · by_cases hb : hasBothMultiples (replaceInfMultiples (recomputeMultiples hr he p)) = true
    · simp [List.filter_cons, hu, hb]
    · simp [List.filter_cons, hu, hb]
  · simp [List.filter_cons, hu]

theorem survivors_filter_ev_rev (he : Bool) (peers : List Peer) :
    survivors true he peers
      = survivors true he (peers.filter fun p => isNumB (infToNan p.ev_rev)) := by
  induction peers with
  | nil => rfl
  | cons p ps ih =>
    rw [List.filter_cons]
    by_cases hrv : isNumB (infToNan p.ev_rev) = true
    · rw [if_pos hrv, survivors_cons, survivors_cons, ih]
    · have hrv' : isNumB (infToNan p.ev_rev) = false := by
        revert hrv; cases isNumB (infToNan p.ev_rev) <;> simp
      have hb : hasBothMultiples (replaceInfMultiples (recomputeMultiples true he p))
          = false := by
        rw [hasBothMultiples, recompute_replace_ev_rev, hrv', Bool.false_and]
      rw [if_neg hrv, survivors_cons, hb, ih]
      simp

theorem survivors_filter_ev_ebitda (hr : Bool) (peers : List Peer) :
    survivors hr true peers
      = survivors hr true (peers.filter fun p => isNumB (infToNan p.ev_ebitda)) := by
  induction peers with
  | nil => rfl
  | cons p ps ih =>
    rw [List.filter_cons]
    by_cases hrv : isNumB (infToNan p.ev_ebitda) = true
    · rw [if_pos hrv, survivors_cons, survivors_cons, ih]
    · have hrv' : isNumB (infToNan p.ev_ebitda) = false := by
        revert hrv; cases isNumB (infToNan p.ev_ebitda) <;> simp
      have hb : hasBothMultiples (replaceInfMultiples (recomputeMultiples hr true p))
          = false := by
        rw [hasBothMultiples, recompute_replace_ev_ebitda, hrv', Bool.and_false]
      rw [if_neg hrv, survivors_cons, hb, ih]
      simp

/-- C4 counterexample: a peer with positive finite drivers whose
ev_rev cell is individually missing while the ev_rev column exists is
dropped by `clean_peers`, not recomputed — even though the recomputed
multiple enterprise_value / revenue_ttm would have been the finite
number 2, so under the claim the peer would survive with both
multiples present. -/
theorem clean_peers_no_per_peer_recompute_counterexample :
    clean_peers true true [Peer.mk (num 2) (num 2) (num 4) nan (num 2)] = [] ∧
    usableMask (Peer.mk (num 2) (num 2) (num 4) nan (num 2)) = true ∧
    fdiv (Peer.mk (num 2) (num 2) (num 4) nan (num 2)).enterprise_value
        (Peer.mk (num 2) (num 2) (num 4) nan (num 2)).revenue_ttm = num 2 := by decide

/-- C4 (amended): a missing multiple is recomputed from enterprise
value and the driver only when the whole multiple column is absent
from the frame; when the column is present, a peer whose cell is
missing (or infinite) is simply dropped — removing such peers up front
does not change the output at all.  After the infinity-to-missing
conversion and the drop, every peer in the output has both multiples
present and finite. -/
theorem clean_peers_multiples_amended :
    (∀ (hr he : Bool) (peers : List Peer),
        (clean_peers hr he peers).all hasBothMultiples = true) ∧
    (∀ (he : Bool) (peers : List Peer),
        clean_peers true he peers
          = clean_peers true he (peers.filter fun p => isNumB (infToNan p.ev_rev))) ∧
    (∀ (hr : Bool) (peers : List Peer),
        clean_peers hr true peers
          = clean_peers hr true (peers.filter fun p => isNumB (infToNan p.ev_ebitda))) := by
  refine ⟨?_, ?_, ?_⟩
  · intro hr he peers
    rw [List.all_eq_true]
    intro p hp
    obtain ⟨q, hq, hu, e1, e2, e3, hb⟩ := mem_clean_peers hp
    exact hb
  · intro he peers
    unfold clean_peers
    rw [survivors_filter_ev_rev]
  · intro hr peers
    unfold clean_peers
    rw [survivors_filter_ev_ebitda]

/-! ## Claim C6 -/

/-- An input set whose terminal FCFF is positive infinity: an infinite
EBIT margin with finite positive revenue, no NWC and matching CAPEX
and D&A percentages. -/
def dcfInfInputs : DCFInputs :=
  ⟨num 100, pinf, num (22/100), num (6/100), num (5/100), num 0, num (9/100),
    5, num (3/100), num (6/100), num (9/100), num (1/100), num (2/100), num (3/100)⟩

/-- An input set whose terminal FCFF is negative: zero EBIT margin and
a positive NWC percentage, so the terminal NWC investment makes the
terminal cash flow negative. -/
def dcfNegInputs : DCFInputs :=
  ⟨num 100, num 0, num (22/100), num (5/100), num (5/100), num (1/10), num (9/100),
    5, num (3/100), num (6/100), num (9/100), num (1/100), num (2/100), num (3/100)⟩

theorem dcfRun_scenario_free (rv em tr cp dp np w : FVal) (yrs : ℕ)
    (gl gb gh tl tb th gl' gb' gh' tl' tb' th' gr gt : FVal) :
    dcfRun ⟨rv, em, tr, cp, dp, np, w, yrs, gl, gb, gh, tl, tb, th⟩ gr gt
      = dcfRun ⟨rv, em, tr, cp, dp, np, w, yrs, gl', gb', gh', tl', tb', th'⟩ gr gt := by
  have hloop : ∀ t, loopState ⟨rv, em, tr, cp, dp, np, w, yrs, gl, gb, gh, tl, tb, th⟩ gr t
      = loopState ⟨rv, em, tr, cp, dp, np, w, yrs, gl', gb', gh', tl', tb', th'⟩ gr t := by
    intro t
    induction t with
    | zero => rfl
    | succ k ih => simp only [loopState]; rw [ih]
  simp only [dcfRun, explicitEV, termFCFF]
  rw [hloop]

/-- C6 counterexample: a non-finite (positive infinite) terminal FCFF
is not reported as missing.  The guard tests `fcff_T1 <= 0 or
np.isnan(fcff_T1)`, which a positive infinity passes, so the base
scenario returns an infinite enterprise value instead of NaN. -/
theorem dcf_terminal_inf_escapes_guard_counterexample :
    termFCFF dcfInfInputs dcfInfInputs.growth_base dcfInfInputs.g_base = pinf ∧
    (dcf_ev dcfInfInputs).2.1 = pinf ∧
    (pinf : FVal) ≠ nan := by decide

/-- C6 (amended): when the terminal FCFF is non-positive or NaN the
scenario enterprise value is missing (the guard catches NaN and every
value that compares at most zero, including negative infinity, but not
positive infinity); each scenario is computed independently, so
changing the low-scenario rates never affects the base and high
outputs and changing the base-scenario rates never affects the low and
high outputs, and the runner is a total function, so no exception is
thrown. -/
theorem dcf_terminal_guard_amended :
    (∀ (I : DCFInputs) (gr gt : FVal),
        (fLe (termFCFF I gr gt) (num 0) || isnanB (termFCFF I gr gt)) = true →
        dcfRun I gr gt = nan) ∧
    (∀ (I : DCFInputs) (x y : FVal),
        (dcf_ev { I with growth_low := x, g_low := y }).2 = (dcf_ev I).2) ∧
    (∀ (I : DCFInputs) (x y : FVal),
        (dcf_ev { I with growth_base := x, g_base := y }).1 = (dcf_ev I).1 ∧
        (dcf_ev { I with growth_base := x, g_base := y }).2.2 = (dcf_ev I).2.2) := by
  refine ⟨?_, fun I x y => ?_, fun I x y => ⟨?_, ?_⟩⟩
  · intro I gr gt h
    simp only [dcfRun]
    rw [h]
    rfl
  · cases I
    simp only [dcf_ev, Prod.mk.injEq]
    exact ⟨dcfRun_scenario_free _ _ _ _ _ _ _ _ _ _ _ _ _ _ _ _ _ _ _ _ _ _,
      dcfRun_scenario_free _ _ _ _ _ _ _ _ _ _ _ _ _ _ _ _ _ _ _ _ _ _⟩
  · cases I
    simp only [dcf_ev]
    exact dcfRun_scenario_free _ _ _ _ _ _ _ _ _ _ _ _ _ _ _ _ _ _ _ _ _ _
  · cases I
    simp only [dcf_ev]
    exact dcfRun_scenario_free _ _ _ _ _ _ _ _ _ _ _ _ _ _ _ _ _ _ _ _ _ _

/-- Witness for C6 (amended): a concrete input set with a negative
terminal FCFF whose base scenario is reported missing. -/
theorem dcf_terminal_guard_amended_witness :
    dcfRun dcfNegInputs dcfNegInputs.growth_base dcfNegInputs.g_base = nan :=
  dcf_terminal_guard_amended.1 dcfNegInputs _ _ (by decide)

/-! ## Claim C7 -/

/-- C7: for a scenario with positive finite terminal FCFF, when WACC is
at most the terminal growth rate (including exact equality) the runner
omits the terminal value and returns only the discounted
explicit-period sum, and when WACC exceeds the terminal growth rate it
adds `FCFF_T1 / (WACC - g)` discounted by `(1 + WACC) ^ N` to that
sum. -/
theorem dcf_terminal_value_gating :
    ∀ (I : DCFInputs) (gr : FVal) (w g : ℚ), I.wacc = num w →
      (isNumB (termFCFF I gr (num g)) && fGt (termFCFF I gr (num g)) (num 0)) = true →
      ((w ≤ g → dcfRun I gr (num g) = explicitEV I gr) ∧
       (g < w → dcfRun I gr (num g)
          = fadd (explicitEV I gr)
              (fdiv (fdiv (termFCFF I gr (num g)) (num (w - g)))
                (fpow (fadd (num 1) (num w)) I.years)))) := by
  intro I gr w g hw hpos
  rcases hq : termFCFF I gr (num g) with _ | _ | _ | q
  · rw [hq] at hpos; simp [isNumB] at hpos
  · rw [hq] at hpos; simp [isNumB] at hpos
  · rw [hq] at hpos; simp [isNumB] at hpos
  rw [hq] at hpos
  have hq0 : 0 < q := by
    simp only [isNumB, Bool.true_and, fGt, fLt] at hpos
    exact of_decide_eq_true hpos
  have hle0 : fLe (num q) (num 0) = false := by
    simp [fLe, hq0.not_le]
  constructor
  · intro hwg
    have hgt : fGt I.wacc (num g) = false := by
      rw [hw]; simp [fGt, fLt, hwg.not_lt]
    simp [dcfRun, hq, hle0, hgt, isnanB]
  · intro hgw
    have hgt : fGt I.wacc (num g) = true := by
      rw [hw]; simp [fGt, fLt, hgw]
    simp only [dcfRun, hq, hle0, hgt, isnanB, Bool.or_false, Bool.false_or]
    rw [if_pos trivial, hw, sub_eq_add_neg]
    simp [fsub, fneg, fadd]

/-- The input set used to witness C7: WACC equal to the base terminal
growth rate, with a positive terminal FCFF. -/
def dcfEqInputs : DCFInputs :=
  ⟨num 100, num (1/5), num (22/100), num (5/100), num (5/100), num 0, num (2/100),
    5, num (3/100), num (6/100), num (9/100), num (1/100), num (2/100), num (3/100)⟩

/-- Witness for C7: with WACC = terminal growth = 2 percent exactly and
a positive finite terminal FCFF, the scenario value is exactly the
explicit-period sum. -/
theorem dcf_terminal_value_gating_witness :
    dcfRun dcfEqInputs (num (6/100)) (num (2/100)) = explicitEV dcfEqInputs (num (6/100)) :=
  (dcf_terminal_value_gating dcfEqInputs (num (6/100)) (2/100) (2/100) rfl (by decide)).1
    (le_refl _)

/-! ## Claim C8 -/

theorem fadd_cancel (v : FVal) (a b c : ℚ) (h1 : a = b) (h2 : c = 0) :
    fadd (fadd (fadd v (num a)) (num (-b))) (num (-c)) = v := by
  subst h1; subst h2
  cases v <;> simp [fadd]

theorem loopState_rev_nwc {I : DCFInputs} {r gq : ℚ} (hr : I.revenue_ttm = num r)
    (hn : I.nwc_pct = num 0) :
    ∀ k : ℕ, (loopState I (num gq) k).1 = num (r * (1 + gq) ^ k) ∧
      (loopState I (num gq) k).2.1 = num 0 := by
  intro k
  induction k with
  | zero =>
    refine ⟨?_, ?_⟩
    · simp [loopState, hr]
    · simp [loopState, hn, hr, fmul]
  | succ k ih =>
    obtain ⟨ih1, ih2⟩ := ih
    refine ⟨?_, ?_⟩
    · simp only [loopState]
      rw [ih1]
      simp only [fadd, fmul]
      exact congrArg num (by ring)
    · simp only [loopState]
      rw [ih1, hn]
      simp only [fadd, fmul]
      exact congrArg num (by ring)

/-- C8: in the explicit-period projection, whenever CAPEX% and D&A%
are both 0.05 and NWC% is zero, the free cash flow to firm of every
year t of the horizon equals that year's NOPAT exactly — the linear
CAPEX taper leaves CAPEX% constant at the common value, CAPEX cancels
against D&A, and the NWC increment is zero. -/
theorem dcf_fcff_eq_nopat_no_taper_no_nwc :
    ∀ (I : DCFInputs) (g r : ℚ) (t : ℕ),
      I.revenue_ttm = num r → I.capex_pct = num (5/100) → I.d_and_a_pct = num (5/100) →
      I.nwc_pct = num 0 → 1 ≤ t → t ≤ I.years →
      fcffYear I (num g) t = nopatYear I (num g) t := by
  intro I g r t hr hc hd hn h1 hN
  obtain ⟨hrev, hnwc⟩ := loopState_rev_nwc hr hn (t - 1)
  simp only [fcffYear, capexPctYear, yearRevNext]
  rw [hrev, hnwc, hc, hd, hn]
  simp only [fadd, fsub, fneg, fmul]
  exact fadd_cancel _ _ _ _ (by ring) (by ring)

/-- The input set used to witness C8: CAPEX% = D&A% = 0.05 and
NWC% = 0. -/
def dcfFlatInputs : DCFInputs :=
  ⟨num 100, num (1/4), num (22/100), num (5/100), num (5/100), num 0, num (9/100),
    5, num (3/100), num (6/100), num (9/100), num (1/100), num (2/100), num (3/100)⟩

/-- Witness for C8: at year 3 of the five-year horizon with base
growth 6 percent, FCFF equals NOPAT exactly. -/
theorem dcf_fcff_eq_nopat_no_taper_no_nwc_witness :
    fcffYear dcfFlatInputs (num (6/100)) 3 = nopatYear dcfFlatInputs (num (6/100)) 3 :=
  dcf_fcff_eq_nopat_no_taper_no_nwc dcfFlatInputs (6/100) 100 3 rfl rfl rfl rfl
    (by norm_num) (by decide)

end ValuAI
